import Mathlib

/-!
Verification of the display transformation and grid layout core of the
Polaris dashboard renderer (`src/scripts/display.py`, with the older
variant `src/display.py` modelled where a claim refers to it).

The Python code is shallowly embedded: dates are a Gregorian
year/month/day structure with the ordinal arithmetic of Python's
`datetime.date`, strings are Lean `String`s, fallible code returns
`Except`, and Python truthiness of optional strings (`None` and `""`
are falsy) is modelled explicitly.
-/

set_option maxRecDepth 4000

/-- A Gregorian calendar date, as Python's `datetime.date`. -/
structure GDate where
  year : Nat
  month : Nat
  day : Nat
deriving DecidableEq, Repr

/-- Gregorian leap-year test (as used by `datetime.date`). -/
def isLeap (y : Nat) : Bool :=
  y % 4 == 0 && (y % 100 != 0 || y % 400 == 0)

/-- Cumulative day counts before each month in a non-leap year. -/
def daysBeforeMonthTable : List Nat :=
  [0, 31, 59, 90, 120, 151, 181, 212, 243, 273, 304, 334]

/-- Days in year `y` strictly before month `m` (1-based). -/
def daysBeforeMonth (y m : Nat) : Nat :=
  daysBeforeMonthTable.getD (m - 1) 0 + (if 2 < m && isLeap y then 1 else 0)

/-- The proleptic-Gregorian ordinal of a date, with 0001-01-01 as day 1:
Python's `date.toordinal()`. -/
def toOrdinal (d : GDate) : Nat :=
  (d.year - 1) * 365 + (d.year - 1) / 4 - (d.year - 1) / 100 + (d.year - 1) / 400
    + daysBeforeMonth d.year d.month + d.day

/-- `date.weekday()`: Monday is 0, Sunday is 6 (0001-01-01 is a Monday). -/
def weekday (d : GDate) : Nat :=
  (toOrdinal d + 6) % 7

/-- The list `weekdays` of `format_date` in `src/scripts/display.py`. -/
def weekdays : List String :=
  ["Monday", "Tuesday", "Wednesday", "Thursday", "Friday", "Saturday", "Sunday"]

/-- `weekdays[date.weekday()]`. -/
def weekdayName (d : GDate) : String :=
  weekdays.getD (weekday d) ""

/-- Month names for `strftime('%B')`. -/
def monthNames : List String :=
  ["January", "February", "March", "April", "May", "June", "July",
   "August", "September", "October", "November", "December"]

/-- `strftime('%B')`. -/
def monthName (d : GDate) : String :=
  monthNames.getD (d.month - 1) ""

/-- A number zero-padded to two digits, as `strftime` `%d`/`%m`/`%H`/`%M`. -/
def pad2 (n : Nat) : String :=
  if n < 10 then "0" ++ toString n else toString n

/-- A year zero-padded to four digits, as CPython's `strftime('%Y')`. -/
def pad4 (n : Nat) : String :=
  if n < 10 then "000" ++ toString n
  else if n < 100 then "00" ++ toString n
  else if n < 1000 then "0" ++ toString n
  else toString n

/-- `date.strftime('%d/%m/%Y')`. -/
def dmyStr (d : GDate) : String :=
  pad2 d.day ++ "/" ++ pad2 d.month ++ "/" ++ pad4 d.year

/-- `(date - current_date).days` for calendar dates. -/
def dayDiff (d current : GDate) : Int :=
  (toOrdinal d : Int) - (toOrdinal current : Int)

/-- The final step of `format_date`: `if time_str and time_str != "23:59"
and time_str != "00:00": day_str += f" at {t}"`, with Python string
truthiness (`None` and `""` are falsy). -/
def timeSuffix (time_str : Option String) : String :=
  match time_str with
  | none => ""
  | some t => if t ≠ "" ∧ t ≠ "23:59" ∧ t ≠ "00:00" then " at " ++ t else ""

/-- `format_date` of `src/scripts/display.py` (lines 248-276): the
Relative Date Humanizer. -/
def format_date (date : GDate) (time_str : Option String) (current_date : GDate) : String :=
  let days_difference := dayDiff date current_date
  let day_str :=
    if days_difference = 0 then "today"
    else if days_difference = 1 then "tomorrow"
    else if days_difference = -1 then "yesterday"
    else if 2 ≤ days_difference ∧ days_difference < 7 then weekdayName date
    else if -7 < days_difference ∧ days_difference < 0 then "last " ++ weekdayName date
    else if 0 < days_difference ∧ days_difference < 14 then "next " ++ weekdayName date
    else weekdayName date ++ " " ++ dmyStr date
  day_str ++ timeSuffix time_str

/-! ### Position Parser (`parse_pos`, `src/scripts/display.py` lines 396-424) -/

/-- Python `str.strip()` on the character list of a string. -/
def pyStrip (s : String) : List Char :=
  ((s.data.dropWhile Char.isWhitespace).reverse.dropWhile Char.isWhitespace).reverse

/-- One or more decimal digits, maximal munch, returning the parsed integer
(as Python `int` of the matched group) and the rest of the input. -/
def takeDigits (cs : List Char) (acc : Nat) (seen : Bool) :
    Option (Nat × List Char) :=
  match cs with
  | c :: rest =>
    if c.isDigit then takeDigits rest (acc * 10 + (c.toNat - '0'.toNat)) true
    else if seen then some (acc, cs) else none
  | [] => if seen then some (acc, []) else none

/-- One axis of `POS_RE`: `x:(\d+)(?:/(\d+))?` with `x` the given letter,
case-insensitively (`re.I`). Returns the first integer, the optional second
integer, and the rest of the input. -/
def matchAxis (lo hi : Char) (cs : List Char) : Option (Nat × Option Nat × List Char) :=
  match cs with
  | a :: ':' :: rest =>
    if a = lo ∨ a = hi then
      match takeDigits rest 0 false with
      | some (n, rest') =>
        match rest' with
        | '/' :: rest'' =>
          match takeDigits rest'' 0 false with
          | some (n2, rest''') => some (n, some n2, rest''')
          | none => none
        | _ => some (n, none, rest')
      | none => none
    else none
  | _ => none

/-- `POS_RE.fullmatch(pos_str.strip())`:
`r:(?P<rs>\d+)(?:/(?P<re>\d+))?\s*;\s*c:(?P<cs>\d+)(?:/(?P<ce>\d+))?` with
`re.I`. Returns the four captured groups on a match. -/
def posMatch (pos_str : String) : Option (Nat × Option Nat × Nat × Option Nat) :=
  match matchAxis 'r' 'R' (pyStrip pos_str) with
  | some (rs, re?, rest) =>
    match (rest.dropWhile Char.isWhitespace) with
    | ';' :: rest2 =>
      match matchAxis 'c' 'C' (rest2.dropWhile Char.isWhitespace) with
      | some (cs, ce?, rest3) => if rest3 = [] then some (rs, re?, cs, ce?) else none
      | none => none
    | _ => none
  | none => none

/-- The two `ValueError`s of `parse_pos`: a malformed position string, and a
negative (backwards) span. -/
inductive PosError where
  | malformed
  | backward
deriving DecidableEq, Repr

/-- `parse_pos` (`src/scripts/display.py` lines 401-424): parses a position
string into zero-based (row_start, row_end, col_start, col_end). -/
def parse_pos (pos_str : String) : Except PosError (Int × Int × Int × Int) :=
  match posMatch pos_str with
  | none => .error .malformed
  | some (rs, re?, cs, ce?) =>
    let row_start : Int := (rs : Int) - 1
    let row_end : Int := match re? with
      | some n => (n : Int) - 1
      | none => row_start
    let col_start : Int := (cs : Int) - 1
    let col_end : Int := match ce? with
      | some n => (n : Int) - 1
      | none => col_start
    if row_start > row_end ∨ col_start > col_end then .error .backward
    else .ok (row_start, row_end, col_start, col_end)

/-- The decremented tuple a successful group match leads to, as `parse_pos`
computes it before the backwards-span check. -/
def decGroups (g : Nat × Option Nat × Nat × Option Nat) : Int × Int × Int × Int :=
  let row_start : Int := (g.1 : Int) - 1
  let row_end : Int := match g.2.1 with
    | some n => (n : Int) - 1
    | none => row_start
  let col_start : Int := (g.2.2.1 : Int) - 1
  let col_end : Int := match g.2.2.2 with
    | some n => (n : Int) - 1
    | none => col_start
  (row_start, row_end, col_start, col_end)

/-! ### Insertion-ordered grouping (Python `dict` buckets) and stable sort -/

/-- Append `v` to the bucket of key `k` in an insertion-ordered association
list, creating the bucket at the end if absent: the effect of
`dict[k] = dict.get(k, []) + [v]` / `dict.setdefault`-style accumulation. -/
def assocAppend {α β : Type} [DecidableEq α] (acc : List (α × List β)) (k : α) (v : β) :
    List (α × List β) :=
  match acc with
  | [] => [(k, [v])]
  | (k', l) :: rest =>
    if k' = k then (k', l ++ [v]) :: rest else (k', l) :: assocAppend rest k v

/-- Bucket a list by a key, preserving first-occurrence order of keys and
insertion order inside each bucket, as a Python insertion-ordered `dict`. -/
def groupByKey {α β : Type} [DecidableEq α] (key : β → α) (l : List β) :
    List (α × List β) :=
  l.foldl (fun acc v => assocAppend acc (key v) v) []

/-- `dict.get(k, [])`. -/
def lookupGroup {α β : Type} [DecidableEq α] (g : List (α × List β)) (k : α) : List β :=
  match g.find? (fun p => decide (p.1 = k)) with
  | some p => p.2
  | none => []

/-- The distinct elements of a list in order of first occurrence (the key
order of a Python insertion-ordered `dict`). -/
def firstOccur {α : Type} [DecidableEq α] (l : List α) : List α :=
  l.foldl (fun acc d => if d ∈ acc then acc else acc ++ [d]) []

/-- Insert `x` into `l` before the first element `y` with `le x y` — the
insertion step of a stable insertion sort. -/
def insertLe {α : Type} (le : α → α → Bool) (x : α) : List α → List α
  | [] => [x]
  | y :: ys => if le x y then x :: y :: ys else y :: insertLe le x ys

/-- Stable insertion sort: the model of Python's stable `sorted`. -/
def stableSort {α : Type} (le : α → α → Bool) : List α → List α
  | [] => []
  | x :: xs => insertLe le x (stableSort le xs)

/-! ### Positioned panels and the Grid Layout Engine
(`src/scripts/display.py` lines 426-462) -/

/-- `PositionedDashboard`: a dashboard panel plus the grid position parsed
from its position string. The `renderable` is the panel's rendered line
sequence; the measured `height` is console I/O and is not modelled. -/
structure PositionedDashboard where
  name : String
  row_start : Int
  row_end : Int
  col_start : Int
  col_end : Int
  renderable : List String
deriving DecidableEq, Repr

/-- `build_layout`'s failures: Python `max()` on an empty sequence raises
`ValueError`, and a column-spanning dashboard raises the
`UnsupportedColumnSpan` `ValueError` naming the dashboard. -/
inductive LayoutError where
  | emptyMax
  | colSpan (name : String)
deriving DecidableEq, Repr

/-- `max(d.col_end for d in dashboards)`, `none` on an empty list. -/
def maxColEnd (ds : List PositionedDashboard) : Option Int :=
  match ds.map (fun d => d.col_end) with
  | [] => none
  | x :: xs => some (xs.foldl max x)

/-- The sort key of `sorted(v, key=lambda d: d.row_start)`. -/
def rowLe (d1 d2 : PositionedDashboard) : Bool :=
  decide (d1.row_start ≤ d2.row_start)

/-- `build_layout` (`src/scripts/display.py` lines 441-462): compute the
column count, reject column spanning, bucket by `col_start`, sort each
bucket by `row_start` (stably), and emit one column track per column index.
The resulting grid is modelled as the list of column tracks. -/
def build_layout (dashboards : List PositionedDashboard) :
    Except LayoutError (List (List PositionedDashboard)) :=
  match maxColEnd dashboards with
  | none => .error .emptyMax
  | some m =>
    match dashboards.find? (fun d => decide (d.col_start ≠ d.col_end)) with
    | some d => .error (.colSpan d.name)
    | none =>
      let n_cols := m + 1
      let dashboards_by_col := groupByKey (fun d => d.col_start) dashboards
      .ok ((List.range n_cols.toNat).map (fun (i : Nat) =>
        stableSort rowLe (lookupGroup dashboards_by_col (i : Int))))

/-! ### Display data model (`src/scripts/display.py` lines 15-246) -/

/-- A Python `datetime` as produced by `strptime`: a date plus a
time-of-day. -/
structure PyDateTime where
  date : GDate
  hour : Nat
  minute : Nat
  second : Nat
deriving DecidableEq, Repr

/-- `value.strftime("%H:%M")`. -/
def fmtHM (dt : PyDateTime) : String :=
  pad2 dt.hour ++ ":" ++ pad2 dt.minute

/-- `datetime.strptime(s, "%Y-%m-%d")`: midnight of the parsed date. -/
def midnight (d : GDate) : PyDateTime :=
  ⟨d, 0, 0, 0⟩

/-- Python truthiness of an optional string: `None` and `""` are falsy. -/
def pyTruthy (o : Option String) : Bool :=
  match o with
  | none => false
  | some s => decide (s ≠ "")

/-- Python `str.removesuffix`, on the character lists of the strings. -/
def removesuffix (s suf : String) : String :=
  if suf.data.isSuffixOf s.data then ⟨s.data.take (s.data.length - suf.data.length)⟩
  else s

/-- One end of an Orgish timestamp object: `{"date": ..., "time": ...}`. -/
structure TsPoint where
  date : GDate
  time : Option String
deriving DecidableEq, Repr

/-- An Orgish timestamp object `{"start": ..., "end": ...}`; `end` is a Lean
keyword, so the field is named `stop`. -/
structure TsObj where
  start : TsPoint
  stop : Option TsPoint
deriving DecidableEq, Repr

/-- The `Timestamp` class: optional start and end time-of-day strings. -/
structure Timestamp where
  start : Option String
  stop : Option String
deriving DecidableEq, Repr

/-- `Timestamp.__init__` (`src/scripts/display.py` lines 52-61): take each
time string and, when truthy, strip a trailing ":00" with `removesuffix`;
the end is only read when the end object is present. -/
def Timestamp.ofObj (ts_obj : TsObj) : Timestamp :=
  let start0 := ts_obj.start.time
  let start := if pyTruthy start0 then start0.map (fun s => removesuffix s ":00") else start0
  let stop :=
    match ts_obj.stop with
    | some p => if pyTruthy p.time then p.time.map (fun s => removesuffix s ":00") else p.time
    | none => none
  ⟨start, stop⟩

/-- An additional's value: absent (`None`), a datetime, or a plain string. -/
inductive AddValue where
  | absent
  | dt (d : PyDateTime)
  | str (s : String)
deriving DecidableEq, Repr

/-- The `DisplayAdditional` class. -/
structure DisplayAdditional where
  name : String
  value : AddValue
  color : String
deriving DecidableEq, Repr

/-- `DisplayAdditional.get_value_str` (`src/scripts/display.py` lines
32-42): `None` for an absent value, the humanized date for a datetime
(date part plus `strftime("%H:%M")`), the string itself otherwise. -/
def get_value_str (a : DisplayAdditional) (current_date : GDate) : Option String :=
  match a.value with
  | .absent => none
  | .dt d => some (format_date d.date (some (fmtHM d)) current_date)
  | .str s => some s

/-- The `DisplayItem` class. -/
structure DisplayItem where
  title : String
  body : Option String
  additionals : List DisplayAdditional
  time : Option Timestamp
  people : List (String × String)
deriving DecidableEq, Repr

/-- The inline time phrase of `DisplayItem.display` (lines 89-97), chosen by
which of start/end are truthy. -/
def timePhrase (t : Timestamp) : String :=
  if pyTruthy t.start && pyTruthy t.stop then
    "from " ++ t.start.getD "" ++ " to " ++ t.stop.getD ""
  else if pyTruthy t.start then "from " ++ t.start.getD ""
  else if pyTruthy t.stop then "until " ++ t.stop.getD ""
  else "all day"

/-- The title line of `DisplayItem.display` (lines 99-101). -/
def titleLine (it : DisplayItem) : String :=
  match it.time with
  | some t => "→ [bold]" ++ it.title ++ " [yellow]" ++ timePhrase t ++ "[/yellow][/bold]"
  | none => "→ [bold]" ++ it.title ++ "[/bold]"

/-- One additional's contribution to the rendering (lines 104-106): its
markup line when `get_value_str` is truthy (present and non-empty), nothing
otherwise. -/
def additionalContribution (a : DisplayAdditional) (current_date : GDate) : List String :=
  match get_value_str a current_date with
  | some s =>
    if s ≠ "" then
      ["  " ++ a.name ++ ": [bold " ++ a.color ++ "]" ++ s ++ "[/bold " ++ a.color ++ "]"]
    else []
  | none => []

/-- The additionals section of `DisplayItem.display` (lines 104-106). -/
def additionalLines (adds : List DisplayAdditional) (current_date : GDate) : List String :=
  adds.flatMap (fun a => additionalContribution a current_date)

/-- The people section of `DisplayItem.display` (lines 108-111). -/
def peopleLines (people : List (String × String)) : List String :=
  if people.length > 0 then
    "  People needed:" :: people.map (fun p => "    - [bold]" ++ p.2 ++ "[/bold]")
  else []

/-- The body block of `DisplayItem.display` (lines 114-124): the Markdown
body with its `Padding` parameters encoded in one element, or one blank line
separating this item from the next when there is no body. -/
def bodyLines (body : Option String) (is_last : Bool) : List String :=
  if pyTruthy body then
    let b := body.getD ""
    ["PAD(" ++ toString (if !(b.startsWith "- ") && !(b.startsWith "1. ") then 1 else 0)
      ++ "," ++ toString (if is_last then 0 else 1) ++ "):" ++ b]
  else if !is_last then [""] else []

/-- `DisplayItem.display` (`src/scripts/display.py` lines 82-124) as its
ordered sequence of rendered blocks. -/
def DisplayItem.displayLines (it : DisplayItem) (current_date : GDate) (is_last : Bool) :
    List String :=
  [titleLine it] ++ additionalLines it.additionals current_date
    ++ peopleLines it.people ++ bodyLines it.body is_last

/-- A raw Polaris record, with every field `transform_item` and
`cal_dashboard` can read. Fields that the Python code obtains by parsing a
date string with a fixed `strptime` format are modelled already parsed
(`date`, `scheduled`, `deadline`, `sent`); a `strptime` of a date-only
format yields a midnight datetime. -/
structure RawItem where
  title : String
  body : Option String
  location : Option String
  timestamp : TsObj
  date : GDate
  person : String × String
  can_start : Bool
  scheduled : Option PyDateTime
  deadline : Option PyDateTime
  priority : Option String
  contexts : List String
  effort : Option String
  sent : Option GDate
  people : List (String × String)
deriving DecidableEq, Repr

/-- An optional raw string passed directly as an additional's value. -/
def ofOptStr (o : Option String) : AddValue :=
  match o with
  | none => .absent
  | some s => .str s

/-- An optional parsed datetime passed as an additional's value
(`datetime.strptime(...) if field else None`). -/
def ofOptDT (o : Option PyDateTime) : AddValue :=
  match o with
  | none => .absent
  | some d => .dt d

/-- `transform_item` (`src/scripts/display.py` lines 142-228): the Record
Transformer's per-tag field mapping; `none` for an unrecognized tag. -/
def transform_item (item : RawItem) (ty : String) : Option DisplayItem :=
  if ty = "events" then
    some { title := item.title, body := item.body,
           additionals := [⟨"Location", ofOptStr item.location, "dodger_blue1"⟩],
           time := some (Timestamp.ofObj item.timestamp),
           people := item.people }
  else if ty = "daily_notes" then
    some { title := item.title, body := item.body, additionals := [],
           time := none, people := [] }
  else if ty = "tickles" then
    some { title := item.title, body := item.body,
           additionals := [⟨"Appeared", .dt (midnight item.date), "dodger_blue1"⟩],
           time := none, people := [] }
  else if ty = "person_dates" then
    some { title := item.title, body := item.body,
           additionals := [⟨"Date", .dt (midnight item.date), "dodger_blue1"⟩,
                           ⟨"Person", .str item.person.2, ""⟩],
           time := none, people := [] }
  else if ty = "tasks" then
    some { title := if !item.can_start then "[NEXT] " ++ item.title else item.title,
           body := item.body,
           additionals := [⟨"Scheduled", ofOptDT item.scheduled, "dark_orange3"⟩,
                           ⟨"Deadline", ofOptDT item.deadline, "red"⟩,
                           ⟨"Priority", ofOptStr item.priority, "green4"⟩,
                           ⟨"Context",
                             if item.contexts ≠ [] then
                               .str (String.intercalate ", " item.contexts)
                             else .absent, "dodger_blue1"⟩,
                           ⟨"Effort", ofOptStr item.effort, "blue"⟩],
           time := none, people := item.people }
  else if ty = "projects" then
    some { title := item.title, body := item.body,
           additionals := [⟨"Scheduled", ofOptDT item.scheduled, "dark_orange3"⟩,
                           ⟨"Deadline", ofOptDT item.deadline, "red"⟩,
                           ⟨"Priority", ofOptStr item.priority, "green4"⟩],
           time := none, people := [] }
  else if ty = "waitings" then
    some { title := item.title, body := item.body,
           additionals := [⟨"Scheduled", ofOptDT item.scheduled, "dark_orange3"⟩,
                           ⟨"Deadline", ofOptDT item.deadline, "red"⟩,
                           ⟨"Sent", ofOptDT (item.sent.map midnight), "dodger_blue1"⟩],
           time := none, people := [] }
  else none

/-- `display_items` (`src/scripts/display.py` lines 126-140): one rendered
block per transformable item (skipping unrecognized ones), with the
last-index flag, and the "No items found." message on an empty input. -/
def display_items (items : List RawItem) (ty : String) (current_date : GDate) : List String :=
  (items.enum.flatMap (fun p =>
    match transform_item p.2 ty with
    | none => []
    | some di => di.displayLines current_date (decide (p.1 = items.length - 1))))
  ++ (if items.isEmpty then ["[red italic]No items found.[/red italic]"] else [])

/-! ### Day Aggregator (`cal_dashboard`, `src/scripts/display.py` lines
304-337) and Named-View Dispatch (`build_dashboards`, lines 339-384) -/

/-- The `Literal["events"] | Literal["daily_notes"]` parameter of
`cal_dashboard`. -/
inductive CalKind where
  | events
  | daily_notes
deriving DecidableEq, Repr

/-- The tag as the string `display_items` receives. -/
def kindStr (ty : CalKind) : String :=
  match ty with
  | .events => "events"
  | .daily_notes => "daily_notes"

/-- The date key `cal_dashboard` extracts per record: an event's timestamp
start date, a daily note's own date field. -/
def extractDate (ty : CalKind) (item : RawItem) : GDate :=
  match ty with
  | .events => item.timestamp.start.date
  | .daily_notes => item.date

/-- The `dailies` dict of `cal_dashboard` (lines 316-326): insertion-ordered
buckets keyed by the extracted date. -/
def calDailies (items : List RawItem) (ty : CalKind) : List (GDate × List RawItem) :=
  groupByKey (extractDate ty) items

/-- `date.strftime('%A, %B %d')` inside its bold-underline markup. -/
def dayHeader (d : GDate) : String :=
  "[bold underline]" ++ weekdayName d ++ ", " ++ monthName d ++ " " ++ pad2 d.day
    ++ "[/bold underline]"

/-- `cal_dashboard` (`src/scripts/display.py` lines 304-337). The
`datetime.now().date()` read inside the function is modelled as the explicit
`now` parameter. After the `for` loop, `items` names the last bucket when
one exists (never empty), so the trailing `if not items` fires exactly when
the input list was empty. -/
def cal_dashboard (items : List RawItem) (ty : CalKind) (now : GDate) : List String :=
  let dailies := calDailies items ty
  (dailies.enum.flatMap (fun p =>
    [dayHeader p.2.1] ++ display_items p.2.2 (kindStr ty) now
      ++ (if p.1 ≠ dailies.length then [""] else [])))
  ++ (if items.isEmpty then display_items [] (kindStr ty) now else [])

/-- The comparison of `sorted(view_data.items(), key=lambda x: x[0])`. -/
def ctxLe (a b : String × List RawItem) : Bool :=
  decide (a.1 ≤ b.1)

/-- Python `str.capitalize()`: first character upper-cased, the rest
lower-cased. -/
def pyCapitalize (s : String) : String :=
  match s.data with
  | [] => ""
  | c :: cs => ⟨Char.toUpper c :: cs.map Char.toLower⟩

/-- The `target_contexts` branch of `build_dashboards` (lines 359-374): one
titled mini-dashboard per context, contexts sorted by key, a blank line
after each but the last. -/
def targetContextLines (view_data : List (String × List RawItem)) (current_date : GDate) :
    List String :=
  (stableSort ctxLe view_data).enum.flatMap (fun p =>
    ["[bold]" ++ pyCapitalize (String.replace p.2.1 "_" " ") ++ "[/bold]", ""]
      ++ display_items p.2.2 "tasks" current_date
      ++ (if p.1 ≠ view_data.length - 1 then [""] else []))

/-- The value of a view map entry: the single-key mapping of record-kind to
raw data. A `records` payload carries a list of records; a `contexts`
payload carries the per-context task map of a `target_contexts` view. -/
inductive ViewPayload where
  | records (items : List RawItem)
  | contexts (ctxs : List (String × List RawItem))
deriving DecidableEq, Repr

/-- The dispatch on `view_data_type` inside `build_dashboards` (lines
356-376). -/
def renderView (view_data_type : String) (payload : ViewPayload)
    (current_date now : GDate) : List String :=
  match payload with
  | .records items =>
    if view_data_type = "events" then cal_dashboard items .events now
    else if view_data_type = "daily_notes" then cal_dashboard items .daily_notes now
    else display_items items view_data_type current_date
  | .contexts ctxs => targetContextLines ctxs current_date

/-- Scan for the first "__" occurrence: the characters before it (reversed
accumulator) and the characters after it. -/
def splitDunder (pre : List Char) (cs : List Char) : Option (List Char × List Char) :=
  match cs with
  | '_' :: '_' :: rest => some (pre.reverse, rest)
  | c :: rest => splitDunder (c :: pre) rest
  | [] => none

/-- `view_name_str.split("__", 1)`: the part before the first "__" and, when
the delimiter occurs, everything after it. -/
def splitView (s : String) : String × Option String :=
  match splitDunder [] s.data with
  | some (before, after) => (⟨before⟩, some ⟨after⟩)
  | none => (s, none)

/-- How `build_dashboards` can fail: a view without a position suffix makes
`parse_pos(None)` raise (`AttributeError` on `None.strip()`), and a present
suffix can fail in `parse_pos` itself. -/
inductive BuildError where
  | nonePosition
  | pos (e : PosError)
deriving DecidableEq, Repr

/-- `PositionedDashboard.__init__` (lines 434-439) applied to
`Panel(displayed, title=view_name)`: parse the position and store the spans;
a `None` position crashes inside `parse_pos`. The measured height is console
I/O and is not modelled. -/
def mkPositionedDashboard (renderable : List String) (name : String) (pos : Option String) :
    Except BuildError PositionedDashboard :=
  match pos with
  | none => .error .nonePosition
  | some p =>
    match parse_pos p with
    | .error e => .error (.pos e)
    | .ok (a, b, c, d) => .ok ⟨name, a, b, c, d, renderable⟩

/-- `build_dashboards` (`src/scripts/display.py` lines 339-384) over the
ordered entries of the view map, each entry `(view_name_str, view_data_type,
view_data)`: split the name on "__", render the view, and build one
positioned panel per view, titled with the pre-suffix name; the first
failure aborts the call, as the first raised exception does in Python. -/
def build_dashboards (views : List (String × String × ViewPayload))
    (current_date now : GDate) : Except BuildError (List PositionedDashboard) :=
  match views with
  | [] => .ok []
  | (view_name_str, view_data_type, view_data) :: rest =>
    let parts := splitView view_name_str
    let displayed := renderView view_data_type view_data current_date now
    match mkPositionedDashboard displayed parts.1 parts.2 with
    | .error e => .error e
    | .ok p =>
      match build_dashboards rest current_date now with
      | .error e => .error e
      | .ok ps => .ok (p :: ps)

/-! ### The older variant's Day Aggregator (`cal_dashboard`,
`src/display.py` lines 311-345), for the determinism claim -/

/-- Add an event to its date's (events, notes) bucket, creating the bucket
at the end when absent. -/
def v0AddEvent (acc : List (GDate × List RawItem × List RawItem)) (d : GDate) (e : RawItem) :
    List (GDate × List RawItem × List RawItem) :=
  match acc with
  | [] => [(d, [e], [])]
  | (k, evs, nts) :: rest =>
    if k = d then (k, evs ++ [e], nts) :: rest else (k, evs, nts) :: v0AddEvent rest d e

/-- Add a note to its date's (events, notes) bucket, creating the bucket at
the end when absent. -/
def v0AddNote (acc : List (GDate × List RawItem × List RawItem)) (d : GDate) (n : RawItem) :
    List (GDate × List RawItem × List RawItem) :=
  match acc with
  | [] => [(d, [], [n])]
  | (k, evs, nts) :: rest =>
    if k = d then (k, evs, nts ++ [n]) :: rest else (k, evs, nts) :: v0AddNote rest d n

/-- The `dailies` dict of the older `cal_dashboard` (`src/display.py` lines
320-331): all events bucketed first, then all notes. -/
def calDailiesV0 (events notes : List RawItem) :
    List (GDate × List RawItem × List RawItem) :=
  notes.foldl (fun acc n => v0AddNote acc n.date n)
    (events.foldl (fun acc e => v0AddEvent acc e.timestamp.start.date e) [])

/-- The older `cal_dashboard` (`src/display.py` lines 311-345): per day a
header, a padded daily-notes block (with its own heading when notes exist),
a blank line, then the events. The `datetime.now().date()` read is the
explicit `now` parameter; `None` record lists arrive as `[]` (`or []`). -/
def cal_dashboard_v0 (events notes : List RawItem) (now : GDate) : List String :=
  (calDailiesV0 events notes).flatMap (fun p =>
    [dayHeader p.1]
      ++ (if !p.2.2.isEmpty then ["[bold italic]Daily Notes:[/bold italic]"] else [])
      ++ display_items p.2.2 "daily_notes" now
      ++ [""]
      ++ display_items p.2.1 "events" now)


/-- All integers captured by a `POS_RE` match are at least 1 (the documented
1-based input convention). -/
def groupsGE1 (g : Nat × Option Nat × Nat × Option Nat) : Prop :=
  1 ≤ g.1 ∧ (∀ n, g.2.1 = some n → 1 ≤ n) ∧ 1 ≤ g.2.2.1 ∧ (∀ n, g.2.2.2 = some n → 1 ≤ n)

/-- The three-panel example layout of the spec: panels at "r:1;c:1",
"r:2;c:1" and "r:1;c:2", already parsed to zero-based spans. -/
def C3ds : List PositionedDashboard :=
  [⟨"cal", 0, 0, 0, 0, []⟩, ⟨"tasks", 1, 1, 0, 0, []⟩, ⟨"dates", 0, 0, 1, 1, []⟩]

/-! ## Theorems -/

/-- Unfolding of `format_date` into its branch chain and time suffix. -/
theorem format_date_eq (date : GDate) (t : Option String) (current : GDate) :
    format_date date t current =
      (if dayDiff date current = 0 then "today"
       else if dayDiff date current = 1 then "tomorrow"
       else if dayDiff date current = -1 then "yesterday"
       else if 2 ≤ dayDiff date current ∧ dayDiff date current < 7 then weekdayName date
       else if -7 < dayDiff date current ∧ dayDiff date current < 0 then
         "last " ++ weekdayName date
       else if 0 < dayDiff date current ∧ dayDiff date current < 14 then
         "next " ++ weekdayName date
       else weekdayName date ++ " " ++ dmyStr date) ++ timeSuffix t := rfl

/-- C1: the Relative Date Humanizer selects its phrase by the day difference
`d = target - current` as a total, non-overlapping partition of the integers:
`d = 0` gives "today", `d = 1` "tomorrow", `d = -1` "yesterday", `2 ≤ d < 7`
the bare weekday name, `-7 < d < 0` (not already matched) "last <weekday>",
`0 < d < 14` (not already matched, i.e. `7 ≤ d < 14`) "next <weekday>", and
otherwise "<weekday> DD/MM/YYYY"; " at <time>" is appended exactly when a
time string is present and is neither "23:59" nor "00:00"; and the boundary
differences -8, -7, -1, 0, 1, 2, 6, 7, 13, 14 fall in the stated buckets
(asserted concretely against the current date Monday 2024-01-15). -/
theorem C1_format_date_partition (date current : GDate) (t : Option String) :
    (dayDiff date current = 0 →
      format_date date t current = "today" ++ timeSuffix t)
  ∧ (dayDiff date current = 1 →
      format_date date t current = "tomorrow" ++ timeSuffix t)
  ∧ (dayDiff date current = -1 →
      format_date date t current = "yesterday" ++ timeSuffix t)
  ∧ (2 ≤ dayDiff date current ∧ dayDiff date current < 7 →
      format_date date t current = weekdayName date ++ timeSuffix t)
  ∧ (-7 < dayDiff date current ∧ dayDiff date current < 0 ∧ dayDiff date current ≠ -1 →
      format_date date t current = "last " ++ weekdayName date ++ timeSuffix t)
  ∧ (7 ≤ dayDiff date current ∧ dayDiff date current < 14 →
      format_date date t current = "next " ++ weekdayName date ++ timeSuffix t)
  ∧ ((dayDiff date current ≤ -7 ∨ 14 ≤ dayDiff date current) →
      format_date date t current = weekdayName date ++ " " ++ dmyStr date ++ timeSuffix t)
  ∧ (dayDiff date current = 0 ∨ dayDiff date current = 1 ∨ dayDiff date current = -1
      ∨ (2 ≤ dayDiff date current ∧ dayDiff date current < 7)
      ∨ (-7 < dayDiff date current ∧ dayDiff date current < 0 ∧ dayDiff date current ≠ -1)
      ∨ (7 ≤ dayDiff date current ∧ dayDiff date current < 14)
      ∨ (dayDiff date current ≤ -7 ∨ 14 ≤ dayDiff date current))
  ∧ (∀ s, t = some s → s ≠ "" → s ≠ "23:59" → s ≠ "00:00" → timeSuffix t = " at " ++ s)
  ∧ ((t = none ∨ t = some "" ∨ t = some "23:59" ∨ t = some "00:00") → timeSuffix t = "")
  ∧ (format_date ⟨2024,1,7⟩ none ⟨2024,1,15⟩ = "Sunday 07/01/2024"
     ∧ format_date ⟨2024,1,8⟩ none ⟨2024,1,15⟩ = "Monday 08/01/2024"
     ∧ format_date ⟨2024,1,14⟩ none ⟨2024,1,15⟩ = "yesterday"
     ∧ format_date ⟨2024,1,15⟩ none ⟨2024,1,15⟩ = "today"
     ∧ format_date ⟨2024,1,16⟩ none ⟨2024,1,15⟩ = "tomorrow"
     ∧ format_date ⟨2024,1,17⟩ none ⟨2024,1,15⟩ = "Wednesday"
     ∧ format_date ⟨2024,1,21⟩ none ⟨2024,1,15⟩ = "Sunday"
     ∧ format_date ⟨2024,1,22⟩ none ⟨2024,1,15⟩ = "next Monday"
     ∧ format_date ⟨2024,1,28⟩ none ⟨2024,1,15⟩ = "next Sunday"
     ∧ format_date ⟨2024,1,29⟩ none ⟨2024,1,15⟩ = "Monday 29/01/2024") := by
  refine ⟨?_, ?_, ?_, ?_, ?_, ?_, ?_, ?_, ?_, ?_, ?_⟩
  · intro h
    rw [format_date_eq, if_pos h]
  · intro h
    rw [format_date_eq, if_neg (by omega), if_pos h]
  · intro h
    rw [format_date_eq, if_neg (by omega), if_neg (by omega), if_pos h]
  · intro h
    rw [format_date_eq, if_neg (by omega), if_neg (by omega), if_neg (by omega),
      if_pos h]
  · intro h
    rw [format_date_eq, if_neg (by omega), if_neg (by omega), if_neg (by omega),
      if_neg (by omega), if_pos (by omega)]
  · intro h
    rw [format_date_eq, if_neg (by omega), if_neg (by omega), if_neg (by omega),
      if_neg (by omega), if_neg (by omega), if_pos (by omega)]
  · intro h
    rw [format_date_eq, if_neg (by omega), if_neg (by omega), if_neg (by omega),
      if_neg (by omega), if_neg (by omega), if_neg (by omega)]
  · omega
  · intro s hs h1 h2 h3
    subst hs
    simp only [timeSuffix]
    rw [if_pos ⟨h1, h2, h3⟩]
  · rintro (h | h | h | h) <;> subst h <;> simp [timeSuffix]
  · exact ⟨by decide, by decide, by decide, by decide, by decide, by decide, by decide,
      by decide, by decide, by decide⟩

/-- C2: the Position Parser maps "r:2/3;c:1" to (1,2,0,0) and "r:1;c:1" to
(0,0,0,0); it fails with the format error (`MalformedPositionSpec`, here
`PosError.malformed`) exactly when the input does not match the grammar of
`POS_RE` (case-insensitive `r:<int>[/<int>]`, optional whitespace, `;`,
optional whitespace, `c:<int>[/<int>]`, with outer whitespace stripped), e.g.
"x:1;y:1"; and it fails with the range error (`BackwardSpanError`, here
`PosError.backward`) exactly when, after decrementing each 1-based integer by
one, `row_start > row_end` or `col_start > col_end`, e.g. "r:3;c:1/0". -/
theorem C2_parse_pos_errors (s : String) :
    parse_pos "r:2/3;c:1" = .ok (1, 2, 0, 0)
  ∧ parse_pos "r:1;c:1" = .ok (0, 0, 0, 0)
  ∧ parse_pos "x:1;y:1" = .error .malformed
  ∧ parse_pos "r:3;c:1/0" = .error .backward
  ∧ (parse_pos s = .error .malformed ↔ posMatch s = none)
  ∧ (parse_pos s = .error .backward ↔
      ∃ g, posMatch s = some g ∧
        ((decGroups g).1 > (decGroups g).2.1 ∨ (decGroups g).2.2.1 > (decGroups g).2.2.2)) := by
  refine ⟨rfl, rfl, rfl, rfl, ?_, ?_⟩ <;>
    cases h : posMatch s with
    | none => simp [parse_pos, h]
    | some g =>
      rcases g with ⟨rs, re?, cs, ce?⟩
      simp only [parse_pos, h, decGroups]
      split <;> simp_all

/-- C8 counterexample: `parse_pos` can return negative components — the spec
string "r:0;c:0" (integers below the 1-based minimum) passes the grammar and
the backwards-span check and yields (-1,-1,-1,-1). -/
theorem C8_counterexample :
    ¬ (∀ (s : String) (a b c d : Int), parse_pos s = .ok (a, b, c, d) →
        0 ≤ a ∧ 0 ≤ b ∧ 0 ≤ c ∧ 0 ≤ d) := by
  intro h
  have hx := h "r:0;c:0" (-1) (-1) (-1) (-1) (by rfl)
  omega

/-- Inversion for a successful `parse_pos`: the groups that were matched and
how the result's components arise from them. -/
theorem parse_pos_ok_inv (s : String) (a b c d : Int)
    (hok : parse_pos s = .ok (a, b, c, d)) :
    ∃ rs re? cs ce?, posMatch s = some (rs, re?, cs, ce?)
      ∧ a = (rs : Int) - 1
      ∧ b = (match re? with | some n => (n : Int) - 1 | none => a)
      ∧ c = (cs : Int) - 1
      ∧ d = (match ce? with | some n => (n : Int) - 1 | none => c)
      ∧ a ≤ b ∧ c ≤ d := by
  cases h : posMatch s with
  | none => rw [parse_pos, h] at hok; exact absurd hok (by simp)
  | some g =>
    obtain ⟨rs, re?, cs, ce?⟩ := g
    refine ⟨rs, re?, cs, ce?, rfl, ?_⟩
    rcases re? with _ | re <;> rcases ce? with _ | ce <;>
      simp only [parse_pos, h] at hok <;> split at hok <;>
      simp only [Except.ok.injEq, Prod.mk.injEq, reduceCtorEq] at hok <;>
      simp only [] <;> omega

/-- C8 (amended): every tuple returned by `parse_pos` has `row_start ≤
row_end` and `col_start ≤ col_end`, and all four components are at least -1;
they are all non-negative — the claimed invariant — under the extra
assumption that every integer in the input spec respects the 1-based input
convention (is at least 1), which `parse_pos` itself does not check. -/
theorem C8_parse_pos_span_invariant (s : String) (a b c d : Int) :
    (parse_pos s = .ok (a, b, c, d) →
      a ≤ b ∧ c ≤ d ∧ -1 ≤ a ∧ -1 ≤ b ∧ -1 ≤ c ∧ -1 ≤ d)
  ∧ (parse_pos s = .ok (a, b, c, d) → (∀ g, posMatch s = some g → groupsGE1 g) →
      0 ≤ a ∧ 0 ≤ b ∧ 0 ≤ c ∧ 0 ≤ d) := by
  constructor
  · intro hok
    obtain ⟨rs, re?, cs, ce?, h, ha, hb, hc, hd, hab, hcd⟩ := parse_pos_ok_inv s a b c d hok
    rcases re? with _ | re <;> rcases ce? with _ | ce <;> simp only [] at hb hd <;> omega
  · intro hok hg
    obtain ⟨rs, re?, cs, ce?, h, ha, hb, hc, hd, hab, hcd⟩ := parse_pos_ok_inv s a b c d hok
    have hge := hg _ h
    simp only [groupsGE1] at hge
    obtain ⟨h1, h2, h3, h4⟩ := hge
    rcases re? with _ | re <;> rcases ce? with _ | ce <;> simp only [] at hb hd
    · omega
    · have := h4 ce rfl; omega
    · have := h2 re rfl; omega
    · have h5 := h2 re rfl; have h6 := h4 ce rfl; omega

/-! ### Grouping and stable-sort lemmas -/

/-- `lookupGroup` after `assocAppend`: the bucket of the appended key grows
by the value, all other buckets are unchanged. -/
theorem lookupGroup_assocAppend {α β : Type} [DecidableEq α]
    (g : List (α × List β)) (k : α) (v : β) (k' : α) :
    lookupGroup (assocAppend g k v) k' =
      if k' = k then lookupGroup g k' ++ [v] else lookupGroup g k' := by
  induction g with
  | nil =>
    by_cases h : k' = k
    · subst h; simp [assocAppend, lookupGroup]
    · simp [assocAppend, lookupGroup, h, Ne.symm h]
  | cons p rest ih =>
    obtain ⟨k0, l0⟩ := p
    by_cases h0 : k0 = k
    · subst h0
      by_cases h' : k' = k0
      · subst h'; simp [assocAppend, lookupGroup]
      · simp [assocAppend, lookupGroup, h', Ne.symm h']
    · by_cases h' : k' = k0
      · subst h'
        simp [assocAppend, lookupGroup, h0, Ne.symm h0]
      · simp only [assocAppend, if_neg h0, lookupGroup, List.find?]
        have hne : (decide (k0 = k')) = false := by
          simp [Ne.symm h']
        rw [hne]
        simpa [lookupGroup] using ih

/-- `groupByKey` over one more element is an `assocAppend`. -/
theorem groupByKey_concat {α β : Type} [DecidableEq α] (key : β → α)
    (l : List β) (v : β) :
    groupByKey key (l ++ [v]) = assocAppend (groupByKey key l) (key v) v := by
  simp [groupByKey, List.foldl_append]

/-- Each bucket of `groupByKey` is the filter of the input by its key, in
input order. -/
theorem lookupGroup_groupByKey {α β : Type} [DecidableEq α] (key : β → α)
    (l : List β) (k : α) :
    lookupGroup (groupByKey key l) k = l.filter (fun v => decide (key v = k)) := by
  induction l using List.reverseRecOn with
  | nil => rfl
  | append_singleton l v ih =>
    rw [groupByKey_concat, lookupGroup_assocAppend, List.filter_append]
    by_cases h : k = key v
    · subst h; simp [ih]
    · simp [ih, Ne.symm h, h]

/-- `firstOccur` over one more element. -/
theorem firstOccur_concat {α : Type} [DecidableEq α] (l : List α) (d : α) :
    firstOccur (l ++ [d]) =
      if d ∈ firstOccur l then firstOccur l else firstOccur l ++ [d] := by
  simp [firstOccur, List.foldl_append]

/-- Membership in `firstOccur` is membership in the list. -/
theorem mem_firstOccur {α : Type} [DecidableEq α] (l : List α) (x : α) :
    x ∈ firstOccur l ↔ x ∈ l := by
  induction l using List.reverseRecOn with
  | nil => simp [firstOccur]
  | append_singleton l d ih =>
    rw [firstOccur_concat]
    by_cases h : d ∈ firstOccur l
    · simp [h, ih, List.mem_append]
      intro hx
      subst hx
      exact ih.mp h
    · simp [h, ih, List.mem_append]

/-- `firstOccur` has no duplicates. -/
theorem firstOccur_nodup {α : Type} [DecidableEq α] (l : List α) :
    (firstOccur l).Nodup := by
  induction l using List.reverseRecOn with
  | nil => simp [firstOccur]
  | append_singleton l d ih =>
    rw [firstOccur_concat]
    by_cases h : d ∈ firstOccur l
    · simpa [h] using ih
    · simp only [if_neg h]
      refine List.Nodup.append ih (List.nodup_singleton d) ?_
      intro a ha had
      rw [List.mem_singleton] at had
      subst had
      exact h ha

/-- The key sequence of `assocAppend` extends the original key sequence by
the new key when it is new. -/
theorem map_fst_assocAppend {α β : Type} [DecidableEq α]
    (g : List (α × List β)) (k : α) (v : β) :
    (assocAppend g k v).map Prod.fst =
      if k ∈ g.map Prod.fst then g.map Prod.fst else g.map Prod.fst ++ [k] := by
  induction g with
  | nil => simp [assocAppend]
  | cons p rest ih =>
    obtain ⟨k0, l0⟩ := p
    by_cases h0 : k0 = k
    · subst h0; simp [assocAppend]
    · simp only [assocAppend, if_neg h0, List.map_cons, ih]
      have hiff : (k ∈ k0 :: rest.map Prod.fst) ↔ (k ∈ rest.map Prod.fst) := by
        constructor
        · intro hk
          rcases List.mem_cons.mp hk with h | h
          · exact absurd h.symm h0
          · exact h
        · exact fun hk => List.mem_cons_of_mem _ hk
      by_cases h1 : k ∈ rest.map Prod.fst <;> simp [h1, hiff]

/-- The keys of `groupByKey`, in order, are the first occurrences of the
extracted keys of the input, in input order. -/
theorem map_fst_groupByKey {α β : Type} [DecidableEq α] (key : β → α) (l : List β) :
    (groupByKey key l).map Prod.fst = firstOccur (l.map key) := by
  induction l using List.reverseRecOn with
  | nil => rfl
  | append_singleton l v ih =>
    rw [groupByKey_concat, map_fst_assocAppend, ih, List.map_append, List.map_singleton,
      firstOccur_concat]

/-- Flattening the buckets of an `assocAppend` permutes to the appended
value plus the flattened original buckets. -/
theorem flatten_assocAppend {α β : Type} [DecidableEq α]
    (g : List (α × List β)) (k : α) (v : β) :
    List.Perm ((assocAppend g k v).map Prod.snd).flatten
      (v :: (g.map Prod.snd).flatten) := by
  induction g with
  | nil => simp [assocAppend]
  | cons p rest ih =>
    obtain ⟨k0, l0⟩ := p
    by_cases h0 : k0 = k
    · subst h0
      simp only [assocAppend, eq_self_iff_true, if_true, List.map_cons, List.flatten_cons,
        List.append_assoc, List.singleton_append]
      exact List.perm_middle
    · simp only [assocAppend, if_neg h0, List.map_cons, List.flatten_cons]
      exact (ih.append_left l0).trans List.perm_middle

/-- The buckets of `groupByKey` partition the input: their concatenation is
a permutation of it. -/
theorem flatten_groupByKey_perm {α β : Type} [DecidableEq α] (key : β → α) (l : List β) :
    List.Perm ((groupByKey key l).map Prod.snd).flatten l := by
  induction l using List.reverseRecOn with
  | nil => rfl
  | append_singleton l v ih =>
    rw [groupByKey_concat]
    have hmid : List.Perm (l ++ [v]) (v :: l) := by
      have h0 := @List.perm_middle β v l []
      rw [List.append_nil] at h0
      exact h0
    exact (flatten_assocAppend _ _ _).trans ((ih.cons v).trans hmid.symm)

/-- Inserting permutes to consing. -/
theorem insertLe_perm {α : Type} (le : α → α → Bool) (x : α) (l : List α) :
    List.Perm (insertLe le x l) (x :: l) := by
  induction l with
  | nil => exact List.Perm.refl _
  | cons y ys ih =>
    simp only [insertLe]
    split
    · exact List.Perm.refl _
    · exact (ih.cons y).trans (List.Perm.swap x y ys)

/-- A stable sort permutes its input. -/
theorem stableSort_perm {α : Type} (le : α → α → Bool) (l : List α) :
    List.Perm (stableSort le l) l := by
  induction l with
  | nil => exact List.Perm.refl _
  | cons x xs ih => exact (insertLe_perm le x (stableSort le xs)).trans (ih.cons x)

/-- Membership after insertion. -/
theorem mem_insertLe {α : Type} (le : α → α → Bool) (x z : α) (l : List α) :
    z ∈ insertLe le x l ↔ z = x ∨ z ∈ l := by
  rw [(insertLe_perm le x l).mem_iff]
  simp

/-- Insertion preserves sortedness, for a total, transitive comparison. -/
theorem insertLe_pairwise {α : Type} (le : α → α → Bool)
    (htot : ∀ a b, le a b = false → le b a = true)
    (htrans : ∀ a b c, le a b = true → le b c = true → le a c = true)
    (x : α) (l : List α) (hl : l.Pairwise (fun a b => le a b = true)) :
    (insertLe le x l).Pairwise (fun a b => le a b = true) := by
  induction l with
  | nil => simp [insertLe]
  | cons y ys ih =>
    simp only [insertLe]
    obtain ⟨hy, hys⟩ := List.pairwise_cons.mp hl
    split
    · rename_i hxy
      refine List.Pairwise.cons ?_ hl
      intro z hz
      rcases List.mem_cons.mp hz with h | h
      · exact h ▸ hxy
      · exact htrans x y z hxy (hy z h)
    · rename_i hxy
      refine List.Pairwise.cons ?_ (ih hys)
      intro z hz
      rcases (mem_insertLe le x z ys).mp hz with h | h
      · exact h ▸ htot x y (Bool.not_eq_true _ ▸ eq_false_of_ne_true hxy)
      · exact hy z h

/-- A stable sort sorts, for a total, transitive comparison. -/
theorem stableSort_pairwise {α : Type} (le : α → α → Bool)
    (htot : ∀ a b, le a b = false → le b a = true)
    (htrans : ∀ a b c, le a b = true → le b c = true → le a c = true)
    (l : List α) :
    (stableSort le l).Pairwise (fun a b => le a b = true) := by
  induction l with
  | nil => simp [stableSort]
  | cons x xs ih => exact insertLe_pairwise le htot htrans x _ ih

/-- Filtering by a predicate closed under "strictly before `x`" commutes
with inserting an `x` that satisfies it. -/
theorem insertLe_filter_pos {α : Type} (le : α → α → Bool) (p : α → Bool) (x : α)
    (l : List α) (hpx : p x = true)
    (hbef : ∀ y, le x y = false → p y = false) :
    (insertLe le x l).filter p = x :: l.filter p := by
  induction l with
  | nil => simp [insertLe, hpx]
  | cons y ys ih =>
    simp only [insertLe]
    split
    · simp [List.filter_cons, hpx]
    · rename_i hxy
      have hpy : p y = false := hbef y (eq_false_of_ne_true hxy)
      simp [List.filter_cons, hpy, ih]

/-- Inserting an element that fails the predicate leaves the filter alone. -/
theorem insertLe_filter_neg {α : Type} (le : α → α → Bool) (p : α → Bool) (x : α)
    (l : List α) (hpx : p x = false) :
    (insertLe le x l).filter p = l.filter p := by
  induction l with
  | nil => simp [insertLe, hpx]
  | cons y ys ih =>
    simp only [insertLe]
    split
    · simp [List.filter_cons, hpx]
    · simp [List.filter_cons, ih]

/-- Stability of the sort, as a filter identity: for a predicate `p` that no
element "strictly before" a `p`-element can satisfy (e.g. an exact sort-key
class), sorting does not change the `p`-sublist. -/
theorem stableSort_filter {α : Type} (le : α → α → Bool) (p : α → Bool)
    (hp : ∀ x, p x = true → ∀ y, le x y = false → p y = false) (l : List α) :
    (stableSort le l).filter p = l.filter p := by
  induction l with
  | nil => rfl
  | cons x xs ih =>
    simp only [stableSort]
    cases hpx : p x
    · rw [insertLe_filter_neg le p x _ hpx, ih]
      simp [List.filter_cons, hpx]
    · rw [insertLe_filter_pos le p x _ hpx (hp x hpx), ih]
      simp [List.filter_cons, hpx]

/-- A left fold of `max` lands on one of its arguments. -/
theorem foldl_max_mem (x : Int) (xs : List Int) : xs.foldl max x ∈ x :: xs := by
  induction xs generalizing x with
  | nil => simp [List.foldl]
  | cons y ys ih =>
    simp only [List.foldl]
    have h1 := ih (max x y)
    rcases List.mem_cons.mp h1 with h2 | h2
    · rw [h2]
      rcases max_choice x y with h3 | h3 <;> rw [h3] <;> simp
    · simp [h2]

/-- The initial value bounds a left fold of `max` from below. -/
theorem le_foldl_max_init (x : Int) (xs : List Int) : x ≤ xs.foldl max x := by
  induction xs generalizing x with
  | nil => simp [List.foldl]
  | cons y ys ih =>
    simp only [List.foldl]
    exact le_trans (le_max_left x y) (ih (max x y))

/-- A left fold of `max` bounds its arguments. -/
theorem foldl_max_le (x : Int) (xs : List Int) (z : Int) (hz : z ∈ x :: xs) :
    z ≤ xs.foldl max x := by
  induction xs generalizing x with
  | nil =>
    simp at hz
    subst hz
    simp [List.foldl]
  | cons y ys ih =>
    simp only [List.foldl]
    rcases List.mem_cons.mp hz with h | h
    · subst h
      exact le_trans (le_max_left z y) (le_foldl_max_init _ _)
    · rcases List.mem_cons.mp h with h' | h'
      · subst h'
        exact le_trans (le_max_right x z) (le_foldl_max_init _ _)
      · exact ih (max x y) (List.mem_cons_of_mem _ h')

/-- The maximum column end is attained by some dashboard. -/
theorem maxColEnd_attained (ds : List PositionedDashboard) (m : Int)
    (h : maxColEnd ds = some m) : ∃ d ∈ ds, d.col_end = m := by
  cases ds with
  | nil => simp [maxColEnd] at h
  | cons d rest =>
    simp only [maxColEnd, List.map_cons, Option.some.injEq] at h
    have hm := foldl_max_mem d.col_end (rest.map (fun d => d.col_end))
    rw [h] at hm
    rcases List.mem_cons.mp hm with h1 | h1
    · exact ⟨d, by simp, h1.symm⟩
    · obtain ⟨d', hd', he⟩ := List.mem_map.mp h1
      exact ⟨d', List.mem_cons_of_mem _ hd', he⟩

/-- The maximum column end bounds every dashboard's column end. -/
theorem maxColEnd_bound (ds : List PositionedDashboard) (m : Int)
    (h : maxColEnd ds = some m) : ∀ d ∈ ds, d.col_end ≤ m := by
  intro d' hd'
  cases ds with
  | nil => simp at hd'
  | cons d rest =>
    simp only [maxColEnd, List.map_cons, Option.some.injEq] at h
    rw [← h]
    rcases List.mem_cons.mp hd' with h1 | h1
    · exact foldl_max_le _ _ _ (h1 ▸ (by simp))
    · exact foldl_max_le _ _ _ (List.mem_cons_of_mem _ (List.mem_map_of_mem _ h1))

/-- `rowLe` is total. -/
theorem rowLe_total (a b : PositionedDashboard) (h : rowLe a b = false) :
    rowLe b a = true := by
  simp [rowLe] at *
  omega

/-- `rowLe` is transitive. -/
theorem rowLe_trans (a b c : PositionedDashboard)
    (h1 : rowLe a b = true) (h2 : rowLe b c = true) : rowLe a c = true := by
  simp [rowLe] at *
  omega

/-- C3: for every non-empty dashboard list in which every dashboard has
`col_start = col_end` (all non-negative, per the Positioned Panel data
model), `build_layout` succeeds and emits exactly `max(col_end) + 1` column
tracks indexed `0..count-1` (including empty tracks), where track `i` is a
permutation of the dashboards with `col_start = i`, is sorted by `row_start`
ascending, and is stable: for every row value `r` the sublist of track `i`
with `row_start = r` is exactly the input-order sublist of dashboards with
`col_start = i` and `row_start = r`. -/
theorem C3_build_layout_columns (ds : List PositionedDashboard) (m : Int)
    (hne : ds ≠ [])
    (hcol : ∀ d ∈ ds, d.col_start = d.col_end)
    (hnn : ∀ d ∈ ds, 0 ≤ d.col_start)
    (hm : maxColEnd ds = some m) :
    ∃ tracks, build_layout ds = .ok tracks
      ∧ (tracks.length : Int) = m + 1
      ∧ ∀ i (hi : i < tracks.length),
          (tracks.get ⟨i, hi⟩).Pairwise (fun a b => a.row_start ≤ b.row_start)
        ∧ List.Perm (tracks.get ⟨i, hi⟩)
            (ds.filter (fun d => decide (d.col_start = (i : Int))))
        ∧ ∀ r : Int, (tracks.get ⟨i, hi⟩).filter (fun d => decide (d.row_start = r)) =
            ds.filter (fun d => decide (d.col_start = (i : Int) ∧ d.row_start = r)) := by
  have hfind : ds.find? (fun d => decide (d.col_start ≠ d.col_end)) = none := by
    rw [List.find?_eq_none]
    intro d hd
    simp [hcol d hd]
  have hm0 : 0 ≤ m := by
    obtain ⟨d, hd, he⟩ := maxColEnd_attained ds m hm
    have h1 := hnn d hd
    have h2 := hcol d hd
    omega
  refine ⟨(List.range (m + 1).toNat).map (fun (i : Nat) =>
      stableSort rowLe (lookupGroup (groupByKey (fun d => d.col_start) ds) (i : Int))),
      ?_, ?_, ?_⟩
  · simp only [build_layout, hm, hfind]
  · simp only [List.length_map, List.length_range]
    omega
  · intro i hi
    have hget : ((List.range (m + 1).toNat).map (fun (i : Nat) =>
        stableSort rowLe (lookupGroup (groupByKey (fun d => d.col_start) ds) (i : Int)))).get
          ⟨i, hi⟩ =
        stableSort rowLe (lookupGroup (groupByKey (fun d => d.col_start) ds) (i : Int)) := by
      simp
    rw [hget, lookupGroup_groupByKey]
    refine ⟨?_, ?_, ?_⟩
    · exact (stableSort_pairwise rowLe rowLe_total rowLe_trans _).imp
        (fun h => by simpa [rowLe] using h)
    · exact stableSort_perm rowLe _
    · intro r
      rw [stableSort_filter rowLe (fun d => decide (d.row_start = r))
        (fun x hx y hxy => by simp [rowLe] at *; omega) _]
      rw [List.filter_filter]
      apply List.filter_congr
      intro d _
      by_cases h1 : d.col_start = (i : Int) <;> by_cases h2 : d.row_start = r <;>
        simp [h1, h2]

/-- Witness for C3 at the spec's three-panel example. -/
theorem C3_build_layout_columns_witness :
    (C3ds ≠ [] ∧ (∀ d ∈ C3ds, d.col_start = d.col_end) ∧ (∀ d ∈ C3ds, 0 ≤ d.col_start)
      ∧ maxColEnd C3ds = some 1)
  ∧ (∃ tracks, build_layout C3ds = .ok tracks
      ∧ (tracks.length : Int) = 1 + 1
      ∧ ∀ i (hi : i < tracks.length),
          (tracks.get ⟨i, hi⟩).Pairwise (fun a b => a.row_start ≤ b.row_start)
        ∧ List.Perm (tracks.get ⟨i, hi⟩)
            (C3ds.filter (fun d => decide (d.col_start = (i : Int))))
        ∧ ∀ r : Int, (tracks.get ⟨i, hi⟩).filter (fun d => decide (d.row_start = r)) =
            C3ds.filter (fun d => decide (d.col_start = (i : Int) ∧ d.row_start = r))) :=
  ⟨⟨by decide, by decide, by decide, by decide⟩,
   C3_build_layout_columns C3ds 1 (by decide) (by decide) (by decide) (by decide)⟩

/-- C4: `build_layout` fails with the `UnsupportedColumnSpan` error, naming
an offending panel, if and only if some panel has `col_start ≠ col_end`; in
particular a panel positioned at "r:1;c:1/2" (parsed to spans (0,0,0,1))
triggers it. Spanning is rejected fatally, never silently approximated. -/
theorem C4_build_layout_colspan (ds : List PositionedDashboard) :
    ((∃ nm, build_layout ds = .error (.colSpan nm)) ↔ ∃ d ∈ ds, d.col_start ≠ d.col_end)
  ∧ (∀ nm, build_layout ds = .error (.colSpan nm) →
      ∃ d ∈ ds, d.name = nm ∧ d.col_start ≠ d.col_end)
  ∧ parse_pos "r:1;c:1/2" = .ok (0, 0, 0, 1)
  ∧ (∀ content : List String,
      build_layout [⟨"fourth", 0, 0, 0, 1, content⟩] = .error (.colSpan "fourth")) := by
  have named : ∀ nm, build_layout ds = .error (.colSpan nm) →
      ∃ d ∈ ds, d.name = nm ∧ d.col_start ≠ d.col_end := by
    intro nm h
    cases hmax : maxColEnd ds with
    | none => simp only [build_layout, hmax] at h; exact absurd h (by simp)
    | some m =>
      cases hf : ds.find? (fun d => decide (d.col_start ≠ d.col_end)) with
      | none =>
        simp only [build_layout, hmax, hf] at h
        exact absurd h (by simp)
      | some d =>
        simp only [build_layout, hmax, hf, Except.error.injEq, LayoutError.colSpan.injEq] at h
        have hp := List.find?_some hf
        have hmem := List.mem_of_find?_eq_some hf
        exact ⟨d, hmem, h, by simpa using hp⟩
  refine ⟨⟨?_, ?_⟩, named, rfl, fun content => rfl⟩
  · rintro ⟨nm, h⟩
    obtain ⟨d, hd, _, hne⟩ := named nm h
    exact ⟨d, hd, hne⟩
  · rintro ⟨d, hd, hne⟩
    cases ds with
    | nil => simp at hd
    | cons d0 rest =>
      have hsome : ∃ m, maxColEnd (d0 :: rest) = some m := ⟨_, rfl⟩
      obtain ⟨m, hm⟩ := hsome
      have hfs : ((d0 :: rest).find? (fun d => decide (d.col_start ≠ d.col_end))).isSome := by
        rw [List.find?_isSome]
        exact ⟨d, hd, by simpa using hne⟩
      obtain ⟨d', hd'⟩ := Option.isSome_iff_exists.mp hfs
      refine ⟨d'.name, ?_⟩
      simp only [build_layout, hm, hd']

/-- In a grouping with distinct keys, a member pair's bucket is what lookup
finds at its key. -/
theorem lookup_of_mem_nodup {α β : Type} [DecidableEq α] (g : List (α × List β))
    (hnd : (g.map Prod.fst).Nodup) (p : α × List β) (hp : p ∈ g) :
    lookupGroup g p.1 = p.2 := by
  induction g with
  | nil => simp at hp
  | cons q rest ih =>
    rw [List.map_cons, List.nodup_cons] at hnd
    rcases List.mem_cons.mp hp with h | h
    · subst h
      simp [lookupGroup, List.find?]
    · have hq : decide (q.1 = p.1) = false := by
        have : p.1 ∈ rest.map Prod.fst := List.mem_map_of_mem _ h
        simp only [decide_eq_false_iff_not]
        intro he
        exact hnd.1 (he ▸ this)
      simp only [lookupGroup, List.find?, hq]
      exact ih hnd.2 h

/-- C5: the Day Aggregator's buckets partition the input: the sequence of
distinct date keys is the first-occurrence order of the extracted dates in
the input (an event's timestamp start date, a note's own date field), each
bucket is exactly the input-order sublist of records with that extracted
date, and the concatenation of all buckets is a permutation of the input
(no record duplicated or dropped). -/
theorem C5_cal_dashboard_partition (items : List RawItem) (ty : CalKind) :
    ((calDailies items ty).map Prod.fst = firstOccur (items.map (extractDate ty)))
  ∧ (∀ p ∈ calDailies items ty,
      p.2 = items.filter (fun r => decide (extractDate ty r = p.1)))
  ∧ List.Perm ((calDailies items ty).map Prod.snd).flatten items := by
  refine ⟨map_fst_groupByKey _ _, ?_, flatten_groupByKey_perm _ _⟩
  intro p hp
  have hnd : ((calDailies items ty).map Prod.fst).Nodup := by
    rw [calDailies, map_fst_groupByKey]
    exact firstOccur_nodup _
  have h1 := lookup_of_mem_nodup _ hnd p hp
  rw [calDailies, lookupGroup_groupByKey] at h1
  exact h1.symm

/-- Appending cannot empty a non-empty string. -/
theorem append_ne_empty_left (s t : String) (h : s ≠ "") : s ++ t ≠ "" := by
  intro he
  apply h
  have hl := congrArg String.length he
  rw [String.length_append] at hl
  have hs : s.length = 0 := by
    have : (("") : String).length = 0 := rfl
    omega
  cases s with
  | mk data =>
    cases data with
    | nil => rfl
    | cons c cs => simp [String.length] at hs

/-- A weekday name is never empty: the weekday index is always in range. -/
theorem weekdayName_ne_empty (d : GDate) : weekdayName d ≠ "" := by
  unfold weekdayName weekday
  have hw : (toOrdinal d + 6) % 7 < 7 := Nat.mod_lt _ (by norm_num)
  interval_cases h : (toOrdinal d + 6) % 7 <;> decide

/-- The Relative Date Humanizer never returns an empty phrase. -/
theorem format_date_ne_empty (date : GDate) (t : Option String) (current : GDate) :
    format_date date t current ≠ "" := by
  rw [format_date_eq]
  apply append_ne_empty_left
  split_ifs <;>
    first
      | decide
      | exact weekdayName_ne_empty date
      | exact append_ne_empty_left _ _ (by decide)
      | exact append_ne_empty_left _ _ (append_ne_empty_left _ _ (weekdayName_ne_empty date))

/-- C6 counterexample: a Display Item whose single Additional has the
present (non-absent) value `""` renders only its title line — the
Additional's name appears nowhere, because Python's truthiness check
`if additional.get_value_str(...)` also drops empty strings. -/
theorem C6_counterexample :
    DisplayItem.displayLines
        ⟨"t", none, [⟨"Location", AddValue.str "", "dodger_blue1"⟩], none, []⟩
        ⟨2024, 1, 15⟩ true
      = ["→ [bold]t[/bold]"]
    ∧ AddValue.str "" ≠ AddValue.absent := by
  exact ⟨rfl, by decide⟩

/-- C6 (amended): in the rendering of every Display Item the additionals
appear as one block, in order; an Additional with an absent value
contributes no output at all; one with a datetime value always contributes
its "<name>: <value>" line with the value run through the Relative Date
Humanizer; one with a plain-string value contributes its "<name>: <value>"
line with the string verbatim exactly when the string is non-empty (an
empty string, though present, is dropped by the truthiness check). -/
theorem C6_additionals_rendering (it : DisplayItem) (current_date : GDate)
    (is_last : Bool) :
    (it.displayLines current_date is_last =
      [titleLine it] ++ additionalLines it.additionals current_date
        ++ peopleLines it.people ++ bodyLines it.body is_last)
  ∧ (additionalLines it.additionals current_date =
      it.additionals.flatMap (fun a => additionalContribution a current_date))
  ∧ (∀ a ∈ it.additionals, a.value = .absent →
      additionalContribution a current_date = [])
  ∧ (∀ a ∈ it.additionals, ∀ d, a.value = .dt d →
      additionalContribution a current_date =
        ["  " ++ a.name ++ ": [bold " ++ a.color ++ "]"
          ++ format_date d.date (some (fmtHM d)) current_date
          ++ "[/bold " ++ a.color ++ "]"])
  ∧ (∀ a ∈ it.additionals, ∀ s, a.value = .str s → s ≠ "" →
      additionalContribution a current_date =
        ["  " ++ a.name ++ ": [bold " ++ a.color ++ "]" ++ s
          ++ "[/bold " ++ a.color ++ "]"])
  ∧ (∀ a ∈ it.additionals, a.value = .str "" →
      additionalContribution a current_date = []) := by
  refine ⟨rfl, rfl, ?_, ?_, ?_, ?_⟩
  · intro a _ hv
    simp [additionalContribution, get_value_str, hv]
  · intro a _ d hv
    simp only [additionalContribution, get_value_str, hv]
    rw [if_pos (format_date_ne_empty _ _ _)]
  · intro a _ s hv hs
    simp only [additionalContribution, get_value_str, hv]
    rw [if_pos hs]
  · intro a _ hv
    simp [additionalContribution, get_value_str, hv]

/-- C7: the Timestamp constructor does NOT always strip seconds — it only
removes a literal trailing ":00". A start time "10:30:15" keeps its seconds
(divergence from the documented "strip the seconds"); "09:00:00" is stripped
to "09:00" as intended, and an already-minute-granular "10:00" is mangled to
"10". -/
theorem C7_timestamp_seconds :
    (Timestamp.ofObj ⟨⟨⟨2024, 1, 15⟩, some "10:30:15"⟩, none⟩).start = some "10:30:15"
  ∧ (Timestamp.ofObj ⟨⟨⟨2024, 1, 15⟩, some "09:00:00"⟩, none⟩).start = some "09:00"
  ∧ (Timestamp.ofObj ⟨⟨⟨2024, 1, 15⟩, some "10:00"⟩, none⟩).start = some "10"
  ∧ (Timestamp.ofObj ⟨⟨⟨2024, 1, 15⟩, some "08:00:00"⟩,
        some ⟨⟨2024, 1, 15⟩, some "09:15:30"⟩⟩).stop = some "09:15:30" := by
  refine ⟨by decide, by decide, by decide, by decide⟩

/-- C9 counterexample: a view map with the single view "cal" — no "__"
position suffix — does not complete: `build_dashboards` fails (in Python,
`parse_pos(None)` raises), so the missing-suffix failure is reachable. -/
theorem C9_counterexample :
    build_dashboards [("cal", "tickles", ViewPayload.records [])]
      ⟨2024, 1, 15⟩ ⟨2024, 1, 15⟩ = .error .nonePosition := by
  rfl

/-- C9 (amended): `build_dashboards` produces one Positioned Panel per view,
titled with the pre-suffix view name, whenever every view name carries a
"__"-separated position suffix that parses; but the suffix is not optional:
any view entry whose name has no "__" delimiter makes the whole call fail
(Python's `parse_pos(None)` crash), so a suffix-less view never yields a
panel. -/
theorem C9_build_dashboards_positions (views : List (String × String × ViewPayload))
    (current_date now : GDate) :
    ((∀ v ∈ views, ∃ p t, (splitView v.1).2 = some p ∧ parse_pos p = .ok t) →
      ∃ panels, build_dashboards views current_date now = .ok panels
        ∧ panels.length = views.length
        ∧ ∀ i (hi : i < panels.length) (hi' : i < views.length),
            (panels.get ⟨i, hi⟩).name = (splitView (views.get ⟨i, hi'⟩).1).1)
  ∧ ((∃ v ∈ views, (splitView v.1).2 = none) →
      ∃ e, build_dashboards views current_date now = .error e) := by
  induction views with
  | nil =>
    constructor
    · intro _
      exact ⟨[], rfl, rfl, fun i hi _ => absurd hi (by simp)⟩
    · rintro ⟨v, hv, _⟩
      simp at hv
  | cons v rest ih =>
    obtain ⟨nm, ty, pl⟩ := v
    constructor
    · intro hall
      obtain ⟨p, t, hsplit0, hparse⟩ := hall (nm, ty, pl) (by simp)
      have hsplit : (splitView nm).2 = some p := hsplit0
      obtain ⟨a, b, c, d⟩ := t
      obtain ⟨panels, hps, hlen, hnames⟩ :=
        ih.1 (fun v hv => hall v (List.mem_cons_of_mem _ hv))
      have hmk : mkPositionedDashboard (renderView ty pl current_date now)
          (splitView nm).1 (splitView nm).2 =
          .ok ⟨(splitView nm).1, a, b, c, d, renderView ty pl current_date now⟩ := by
        rw [hsplit]
        simp [mkPositionedDashboard, hparse]
      refine ⟨⟨(splitView nm).1, a, b, c, d, renderView ty pl current_date now⟩ :: panels,
        ?_, by simp [hlen], ?_⟩
      · simp only [build_dashboards, hmk, hps]
      · intro i hi hi'
        cases i with
        | zero => rfl
        | succ n =>
          exact hnames n (by simpa using hi) (by simpa using hi')
    · rintro ⟨v', hv', hnone⟩
      rcases List.mem_cons.mp hv' with h | h
      · subst h
        have hnone' : (splitView nm).2 = none := hnone
        have hmk : mkPositionedDashboard (renderView ty pl current_date now)
            (splitView nm).1 (splitView nm).2 = .error .nonePosition := by
          rw [hnone']
          rfl
        exact ⟨.nonePosition, by simp only [build_dashboards, hmk]⟩
      · obtain ⟨e, he⟩ := ih.2 ⟨v', h, hnone⟩
        cases hmk : mkPositionedDashboard (renderView ty pl current_date now)
            (splitView nm).1 (splitView nm).2 with
        | error e' => exact ⟨e', by simp only [build_dashboards, hmk]⟩
        | ok q => exact ⟨e, by simp only [build_dashboards, hmk, he]⟩

/-- An additional whose value is not a datetime renders the same under any
reference date. -/
theorem additionalContribution_const (a : DisplayAdditional)
    (h : ∀ d, a.value ≠ .dt d) (c1 c2 : GDate) :
    additionalContribution a c1 = additionalContribution a c2 := by
  cases hv : a.value with
  | absent => simp only [additionalContribution, get_value_str, hv]
  | dt d => exact absurd hv (h d)
  | str s => simp only [additionalContribution, get_value_str, hv]

/-- An additionals list without datetime values renders the same under any
reference date. -/
theorem additionalLines_const (adds : List DisplayAdditional)
    (h : ∀ a ∈ adds, ∀ d, a.value ≠ .dt d) (c1 c2 : GDate) :
    additionalLines adds c1 = additionalLines adds c2 := by
  induction adds with
  | nil => rfl
  | cons a rest ih =>
    simp only [additionalLines, List.flatMap_cons]
    rw [additionalContribution_const a (h a (by simp)) c1 c2]
    have hr := ih (fun a ha => h a (List.mem_cons_of_mem _ ha))
    simp only [additionalLines] at hr
    rw [hr]

/-- A Display Item without datetime additionals renders the same under any
reference date. -/
theorem displayLines_const (it : DisplayItem) (is_last : Bool)
    (h : ∀ a ∈ it.additionals, ∀ d, a.value ≠ .dt d) (c1 c2 : GDate) :
    it.displayLines c1 is_last = it.displayLines c2 is_last := by
  unfold DisplayItem.displayLines
  rw [additionalLines_const it.additionals h c1 c2]

/-- The Record Transformer gives events and daily notes no datetime-valued
additionals (an event's Location is a plain string, a note has none). -/
theorem transform_cal_no_dt (item : RawItem) (ty : CalKind) (di : DisplayItem)
    (h : transform_item item (kindStr ty) = some di) :
    ∀ a ∈ di.additionals, ∀ d, a.value ≠ .dt d := by
  cases ty with
  | events =>
    unfold kindStr transform_item at h
    rw [if_pos rfl] at h
    injection h with h
    subst h
    intro a ha d
    simp only [List.mem_singleton] at ha
    subst ha
    cases hl : item.location <;> simp [ofOptStr, hl]
  | daily_notes =>
    unfold kindStr transform_item at h
    rw [if_neg (by decide), if_pos rfl] at h
    injection h with h
    subst h
    intro a ha
    simp at ha

/-- Pointwise-equal functions flat-map equally. -/
theorem flatMap_congr_fun {α β : Type} (l : List α) (f g : α → List β)
    (h : ∀ x ∈ l, f x = g x) : l.flatMap f = l.flatMap g := by
  induction l with
  | nil => rfl
  | cons x xs ih =>
    simp only [List.flatMap_cons]
    rw [h x (by simp), ih (fun x hx => h x (List.mem_cons_of_mem _ hx))]

/-- `display_items` over events or daily notes ignores its reference date. -/
theorem display_items_cal_const (items : List RawItem) (ty : CalKind) (c1 c2 : GDate) :
    display_items items (kindStr ty) c1 = display_items items (kindStr ty) c2 := by
  unfold display_items
  congr 1
  apply flatMap_congr_fun
  intro p _
  cases hti : transform_item p.2 (kindStr ty) with
  | none => rfl
  | some di => exact displayLines_const di _ (transform_cal_no_dt p.2 ty di hti) c1 c2

/-- `cal_dashboard` ignores the clock-derived date it reads. -/
theorem cal_dashboard_const (items : List RawItem) (ty : CalKind) (n1 n2 : GDate) :
    cal_dashboard items ty n1 = cal_dashboard items ty n2 := by
  have key : ∀ n, cal_dashboard items ty n =
      ((calDailies items ty).enum.flatMap (fun p =>
        [dayHeader p.2.1] ++ display_items p.2.2 (kindStr ty) n
          ++ (if p.1 ≠ (calDailies items ty).length then [""] else [])))
      ++ (if items.isEmpty then display_items [] (kindStr ty) n else []) := fun n => rfl
  refine (key n1).trans (Eq.trans ?_ (key n2).symm)
  have hA : (calDailies items ty).enum.flatMap (fun p =>
        [dayHeader p.2.1] ++ display_items p.2.2 (kindStr ty) n1
          ++ (if p.1 ≠ (calDailies items ty).length then [""] else []))
      = (calDailies items ty).enum.flatMap (fun p =>
        [dayHeader p.2.1] ++ display_items p.2.2 (kindStr ty) n2
          ++ (if p.1 ≠ (calDailies items ty).length then [""] else [])) := by
    apply flatMap_congr_fun
    intro p _
    rw [display_items_cal_const p.2.2 ty n1 n2]
  have hB : (if items.isEmpty then display_items [] (kindStr ty) n1 else [])
      = (if items.isEmpty then display_items [] (kindStr ty) n2 else []) := by
    by_cases he : items.isEmpty = true
    · rw [if_pos he, if_pos he]
      exact display_items_cal_const ([] : List RawItem) ty n1 n2
    · rw [if_neg he, if_neg he]
  exact congrArg₂ (fun x y => x ++ y) hA hB

/-- The older combined `cal_dashboard` also ignores the clock-derived date. -/
theorem cal_dashboard_v0_const (events notes : List RawItem) (n1 n2 : GDate) :
    cal_dashboard_v0 events notes n1 = cal_dashboard_v0 events notes n2 := by
  unfold cal_dashboard_v0
  apply flatMap_congr_fun
  intro p _
  have h1 := display_items_cal_const p.2.2 .daily_notes n1 n2
  have h2 := display_items_cal_const p.2.1 .events n1 n2
  simp only [kindStr] at h1 h2
  rw [h1, h2]

/-- `renderView` depends on the explicit current date only, never on the
clock-derived date. -/
theorem renderView_const (ty : String) (pl : ViewPayload) (cd n1 n2 : GDate) :
    renderView ty pl cd n1 = renderView ty pl cd n2 := by
  cases pl with
  | records items =>
    simp only [renderView]
    by_cases h1 : ty = "events"
    · simp [h1, cal_dashboard_const items .events n1 n2]
    · by_cases h2 : ty = "daily_notes"
      · simp [h1, h2, cal_dashboard_const items .daily_notes n1 n2]
      · simp [h1, h2]
  | contexts ctxs => rfl

/-- C10: the display pipeline is deterministic in the wall clock: for any
record batch and fixed explicit current date, the outputs of
`build_dashboards`, `cal_dashboard` (both the grid version and the older
combined version) are identical under any two values of the
`datetime.now().date()` read, so two runs at different wall-clock times
produce identical output and the result depends only on the supplied
records and the explicitly passed current date. (`display_items` takes no
clock input at all.) -/
theorem C10_clock_independence (views : List (String × String × ViewPayload))
    (items events notes : List RawItem) (ty : CalKind)
    (current_date now1 now2 : GDate) :
    build_dashboards views current_date now1 = build_dashboards views current_date now2
  ∧ cal_dashboard items ty now1 = cal_dashboard items ty now2
  ∧ cal_dashboard_v0 events notes now1 = cal_dashboard_v0 events notes now2 := by
  refine ⟨?_, cal_dashboard_const items ty now1 now2,
    cal_dashboard_v0_const events notes now1 now2⟩
  induction views with
  | nil => rfl
  | cons v rest ih =>
    obtain ⟨nm, vty, pl⟩ := v
    simp only [build_dashboards]
    rw [renderView_const vty pl current_date now1 now2, ih]
